import Mathlib

/-!
Verification of the core of the conference-slack-form repository:
the company-name sanitizer (`worker/src/utils/validation.ts`), the
in-memory fixed-window rate limiter (`RateLimiter.checkAndIncrement`),
the Slack channel-creation collision-retry loop
(`SlackClient.createChannel` in `worker/src/lib/slack.ts`) and the
submission orchestrator (`router.post` handler for the submit endpoint
in `worker/src/index.ts`).

Strings are modelled as `List Char`.  The two Unicode-table-dependent
steps of the sanitizer (JS `toLowerCase` and `normalize` to the
decomposed form) are modelled as per-character cover maps passed as
parameters; every other step of the pipeline is translated directly
from the regular expressions in the source.  After the character
filter the string is pure ASCII, so counting code points agrees with
the UTF-16 code-unit count used by `slice`.
-/

/-! ## Sanitizer: worker/src/utils/validation.ts, sanitizeCompanyName -/

/-- Character class of the regex `[a-z0-9-]` (the characters kept by
the removal step `replace [^a-z0-9-] with empty`). -/
def isSlugChar (c : Char) : Bool :=
  (97 ≤ c.toNat && c.toNat ≤ 122) || (48 ≤ c.toNat && c.toNat ≤ 57) || (c == '-')

/-- Character range of the regex `[̀-ͯ]` (combining
diacritical marks removed after decomposition). -/
def isCombiningMark (c : Char) : Bool :=
  0x300 ≤ c.toNat && c.toNat ≤ 0x36f

/-- The ECMAScript regex class `\s`: whitespace and line terminators. -/
def isJsWhitespace (c : Char) : Bool :=
  (9 ≤ c.toNat && c.toNat ≤ 13) || c.toNat == 32 || c.toNat == 0xa0 ||
  c.toNat == 0x1680 || (0x2000 ≤ c.toNat && c.toNat ≤ 0x200a) ||
  c.toNat == 0x2028 || c.toNat == 0x2029 || c.toNat == 0x202f ||
  c.toNat == 0x205f || c.toNat == 0x3000 || c.toNat == 0xfeff

/-- The regex replacement `replace \s+ with a single dash`: each maximal
run of whitespace becomes one dash.  The flag records whether the
previous character was part of a whitespace run. -/
def collapseWsAux : Bool → List Char → List Char
  | _, [] => []
  | prevWs, c :: cs =>
    if isJsWhitespace c then
      (if prevWs then [] else ['-']) ++ collapseWsAux true cs
    else
      c :: collapseWsAux false cs

def collapseWhitespace (l : List Char) : List Char := collapseWsAux false l

/-- The regex replacement `replace -+ with -`: each maximal run of
dashes becomes one dash. -/
def collapseDashAux : Bool → List Char → List Char
  | _, [] => []
  | prevDash, c :: cs =>
    if c == '-' then
      (if prevDash then [] else ['-']) ++ collapseDashAux true cs
    else
      c :: collapseDashAux false cs

def collapseDashes (l : List Char) : List Char := collapseDashAux false l

/-- Strip the trailing run of dashes (the `-+$` part of the trim regex). -/
def dropTrailingDashes : List Char → List Char
  | [] => []
  | c :: cs =>
    match dropTrailingDashes cs with
    | [] => if c == '-' then [] else [c]
    | r => c :: r

/-- The regex replacement removing `^-+` and `-+$`: strip the leading
and the trailing run of dashes. -/
def trimDashes (l : List Char) : List Char :=
  dropTrailingDashes (l.dropWhile (· == '-'))

/-- The removal step `replace [̀-ͯ] with empty`. -/
def stripCombining (l : List Char) : List Char :=
  l.filter (fun c => !isCombiningMark c)

/-- `sanitizeCompanyName` from `worker/src/utils/validation.ts`:
lowercase, normalize to the decomposed form and strip combining marks,
replace whitespace runs by dashes, remove everything outside
`[a-z0-9-]`, collapse dash runs, trim leading and trailing dashes,
truncate to 67 characters.  `lower` and `nfd` are the per-character
cover maps of the JS `toLowerCase` and `normalize NFD` steps. -/
def sanitizeCompanyName (lower nfd : Char → List Char) (raw : List Char) : List Char :=
  List.take 67 (trimDashes (collapseDashes (List.filter isSlugChar
    (collapseWhitespace (stripCombining ((raw.flatMap lower).flatMap nfd))))))

/-- Identity per-character cover map.  On the concrete scenario inputs
used below (already-lowercase ASCII letters, digits, spaces, emoji)
both JS `toLowerCase` and `normalize NFD` act as the identity, so this
instantiation agrees with the runtime there. -/
def idCharMap (c : Char) : List Char := [c]

/-- Boolean predicate: the list has no two consecutive dash characters. -/
def noDoubleDash : List Char → Bool
  | c1 :: c2 :: cs => !((c1 == '-') && (c2 == '-')) && noDoubleDash (c2 :: cs)
  | _ => true

example : sanitizeCompanyName idCharMap idCharMap "acme   corp".toList = "acme-corp".toList := by decide
example : sanitizeCompanyName idCharMap idCharMap "--acme--".toList = "acme".toList := by decide
example : sanitizeCompanyName idCharMap idCharMap "   ".toList = [] := by decide

/-! ### Character-class facts -/

lemma slugChar_cases {c : Char} (h : isSlugChar c = true) :
    (97 ≤ c.toNat ∧ c.toNat ≤ 122) ∨ (48 ≤ c.toNat ∧ c.toNat ≤ 57) ∨ c.toNat = 45 := by
  simp only [isSlugChar, Bool.or_eq_true, Bool.and_eq_true, decide_eq_true_eq,
    beq_iff_eq] at h
  rcases h with (h | h) | h
  · exact Or.inl h
  · exact Or.inr (Or.inl h)
  · subst h; exact Or.inr (Or.inr rfl)

lemma slugChar_toNat_le {c : Char} (h : isSlugChar c = true) : c.toNat ≤ 122 := by
  rcases slugChar_cases h with h | h | h <;> omega

lemma slugChar_toNat_ge {c : Char} (h : isSlugChar c = true) : 45 ≤ c.toNat := by
  rcases slugChar_cases h with h | h | h <;> omega

lemma slugChar_not_combining {c : Char} (h : isSlugChar c = true) :
    isCombiningMark c = false := by
  have := slugChar_toNat_le h
  simp only [isCombiningMark, Bool.and_eq_false_iff, decide_eq_false_iff_not]
  omega

lemma slugChar_not_ws {c : Char} (h : isSlugChar c = true) :
    isJsWhitespace c = false := by
  have h1 := slugChar_toNat_le h
  have h2 := slugChar_toNat_ge h
  rcases slugChar_cases h with h | h | h <;>
    · simp only [isJsWhitespace, Bool.or_eq_false_iff, Bool.and_eq_false_iff,
        decide_eq_false_iff_not, beq_eq_false_iff_ne, ne_eq]
      omega

lemma dash_slugChar : isSlugChar '-' = true := by decide

/-! ### Structural lemmas for the pipeline stages -/

lemma mem_collapseWsAux {c : Char} : ∀ (b : Bool) (l : List Char),
    c ∈ collapseWsAux b l → c = '-' ∨ c ∈ l := by
  intro b l
  induction l generalizing b with
  | nil => simp [collapseWsAux]
  | cons d cs ih =>
    intro h
    simp only [collapseWsAux] at h
    split at h
    · rcases List.mem_append.1 h with h | h
      · split at h <;> simp_all
      · rcases ih true h with h | h
        · exact Or.inl h
        · exact Or.inr (List.mem_cons_of_mem _ h)
    · rcases List.mem_cons.1 h with h | h
      · subst h; exact Or.inr (List.mem_cons_self _ _)
      · rcases ih false h with h | h
        · exact Or.inl h
        · exact Or.inr (List.mem_cons_of_mem _ h)

lemma mem_collapseDashAux {c : Char} : ∀ (b : Bool) (l : List Char),
    c ∈ collapseDashAux b l → c = '-' ∨ c ∈ l := by
  intro b l
  induction l generalizing b with
  | nil => simp [collapseDashAux]
  | cons d cs ih =>
    intro h
    simp only [collapseDashAux] at h
    split at h
    · rcases List.mem_append.1 h with h | h
      · split at h <;> simp_all
      · rcases ih true h with h | h
        · exact Or.inl h
        · exact Or.inr (List.mem_cons_of_mem _ h)
    · rcases List.mem_cons.1 h with h | h
      · subst h; exact Or.inr (List.mem_cons_self _ _)
      · rcases ih false h with h | h
        · exact Or.inl h
        · exact Or.inr (List.mem_cons_of_mem _ h)

lemma mem_dropTrailingDashes {c : Char} : ∀ l : List Char,
    c ∈ dropTrailingDashes l → c ∈ l := by
  intro l
  induction l with
  | nil => simp [dropTrailingDashes]
  | cons d cs ih =>
    intro h
    rw [dropTrailingDashes] at h
    rcases hd : dropTrailingDashes cs with _ | ⟨r0, rs⟩
    · rw [hd] at h
      split at h <;> simp_all
    · rw [hd] at h
      rcases List.mem_cons.1 h with h | h
      · subst h; exact List.mem_cons_self _ _
      · exact List.mem_cons_of_mem _ (ih (hd ▸ h))

lemma noDoubleDash_cons_iff (c : Char) (cs : List Char) :
    noDoubleDash (c :: cs) = true ↔
      (noDoubleDash cs = true ∧ (c = '-' → cs.head? ≠ some '-')) := by
  cases cs with
  | nil => simp [noDoubleDash]
  | cons c2 cs2 =>
    simp only [noDoubleDash, Bool.and_eq_true, Bool.not_eq_true', Bool.and_eq_false_iff,
      beq_eq_false_iff_ne, ne_eq, List.head?_cons, Option.some.injEq]
    constructor
    · rintro ⟨h1, h2⟩
      refine ⟨h2, ?_⟩
      intro hc h2'
      rcases h1 with h | h
      · exact h hc
      · exact h h2'
    · rintro ⟨h1, h2⟩
      refine ⟨?_, h1⟩
      by_cases hc : c = '-'
      · exact Or.inr (h2 hc)
      · exact Or.inl hc

lemma head?_collapseDashAux_true (l : List Char) :
    ∀ c, (collapseDashAux true l).head? = some c → c ≠ '-' := by
  induction l with
  | nil => simp [collapseDashAux]
  | cons d cs ih =>
    intro c h
    simp only [collapseDashAux] at h
    split at h
    · exact ih c (by simpa using h)
    · rename_i hd
      simp only [List.head?_cons, Option.some.injEq] at h
      subst h
      simpa using hd

lemma noDoubleDash_collapseDashAux : ∀ (b : Bool) (l : List Char),
    noDoubleDash (collapseDashAux b l) = true := by
  intro b l
  induction l generalizing b with
  | nil => cases b <;> rfl
  | cons d cs ih =>
    simp only [collapseDashAux]
    split
    · cases b with
      | true => simpa using ih true
      | false =>
        show noDoubleDash ('-' :: collapseDashAux true cs) = true
        rw [noDoubleDash_cons_iff]
        refine ⟨ih true, fun _ h => ?_⟩
        rcases h' : (collapseDashAux true cs).head? with _ | c
        · rw [h'] at h; cases h
        · rw [h'] at h
          exact head?_collapseDashAux_true cs c h' (by simpa using h)
    · rw [noDoubleDash_cons_iff]
      rename_i hd
      refine ⟨ih false, fun hc => ?_⟩
      exact absurd hc (by simpa using hd)

lemma noDoubleDash_tail {c : Char} {cs : List Char}
    (h : noDoubleDash (c :: cs) = true) : noDoubleDash cs = true :=
  ((noDoubleDash_cons_iff c cs).1 h).1

lemma noDoubleDash_dropWhile {p : Char → Bool} : ∀ l : List Char,
    noDoubleDash l = true → noDoubleDash (l.dropWhile p) = true := by
  intro l
  induction l with
  | nil => simp
  | cons c cs ih =>
    intro h
    rw [List.dropWhile_cons]
    split
    · exact ih (noDoubleDash_tail h)
    · exact h

lemma head?_take {α : Type} {n : ℕ} (hn : n ≠ 0) (l : List α) :
    (l.take n).head? = l.head? := by
  cases l with
  | nil => simp
  | cons c cs =>
    cases n with
    | zero => exact absurd rfl hn
    | succ m => simp [List.take_succ_cons]

lemma noDoubleDash_take : ∀ (l : List Char) (n : ℕ),
    noDoubleDash l = true → noDoubleDash (l.take n) = true := by
  intro l
  induction l with
  | nil => simp
  | cons c cs ih =>
    intro n h
    cases n with
    | zero => simp [noDoubleDash]
    | succ m =>
      rw [List.take_succ_cons, noDoubleDash_cons_iff]
      rcases (noDoubleDash_cons_iff c cs).1 h with ⟨h1, h2⟩
      refine ⟨ih m h1, fun hc hh => ?_⟩
      rcases Nat.eq_zero_or_pos m with hm | hm
      · subst hm; simp at hh
      · rw [head?_take (Nat.pos_iff_ne_zero.1 hm) cs] at hh
        exact h2 hc hh

lemma dropTrailingDashes_cons_of_nil {c : Char} {cs : List Char}
    (hd : dropTrailingDashes cs = []) :
    dropTrailingDashes (c :: cs) = if c == '-' then [] else [c] := by
  rw [dropTrailingDashes, hd]

lemma dropTrailingDashes_cons_of_cons {c r0 : Char} {cs rs : List Char}
    (hd : dropTrailingDashes cs = r0 :: rs) :
    dropTrailingDashes (c :: cs) = c :: r0 :: rs := by
  rw [dropTrailingDashes, hd]

lemma dropTrailingDashes_prefix_self : ∀ l : List Char, dropTrailingDashes l <+: l := by
  intro l
  induction l with
  | nil => exact List.nil_prefix
  | cons c cs ih =>
    rcases hd : dropTrailingDashes cs with _ | ⟨r0, rs⟩
    · rw [dropTrailingDashes_cons_of_nil hd]
      split
      · exact List.nil_prefix
      · exact ⟨cs, rfl⟩
    · rw [dropTrailingDashes_cons_of_cons hd]
      rw [hd] at ih
      exact (List.cons_prefix_cons).2 ⟨rfl, ih⟩

lemma getLast?_dropTrailingDashes : ∀ l : List Char,
    ∀ c, (dropTrailingDashes l).getLast? = some c → c ≠ '-' := by
  intro l
  induction l with
  | nil => simp [dropTrailingDashes]
  | cons d cs ih =>
    intro c h
    rcases hd : dropTrailingDashes cs with _ | ⟨r0, rs⟩
    · rw [dropTrailingDashes_cons_of_nil hd] at h
      split at h
      · simp at h
      · rename_i hne
        simp only [List.getLast?_singleton, Option.some.injEq] at h
        subst h
        simpa using hne
    · rw [dropTrailingDashes_cons_of_cons hd] at h
      rw [List.getLast?_cons_cons] at h
      exact ih c (hd ▸ h)

lemma dropTrailingDashes_of_getLast {l : List Char}
    (h : ∀ c, l.getLast? = some c → c ≠ '-') : dropTrailingDashes l = l := by
  induction l with
  | nil => rfl
  | cons d cs ih =>
    cases cs with
    | nil =>
      have hd : d ≠ '-' := h d (by simp)
      have h0 : dropTrailingDashes ([] : List Char) = [] := rfl
      rw [dropTrailingDashes_cons_of_nil h0]
      simp [hd]
    | cons c2 cs2 =>
      have hcs : dropTrailingDashes (c2 :: cs2) = c2 :: cs2 := by
        apply ih
        intro c hc
        exact h c (by rwa [List.getLast?_cons_cons])
      rw [dropTrailingDashes_cons_of_cons hcs]

/-- Tail of the sanitizer pipeline, from the character filter on.  The
whole sanitizer is this tail applied to the preprocessed character
stream, so every property proved of `slugPost` holds for the sanitizer
regardless of the Unicode cover maps. -/
def slugPost (l : List Char) : List Char :=
  List.take 67 (trimDashes (collapseDashes (List.filter isSlugChar l)))

lemma sanitizeCompanyName_eq_slugPost (lower nfd : Char → List Char) (raw : List Char) :
    sanitizeCompanyName lower nfd raw =
      slugPost (collapseWhitespace (stripCombining ((raw.flatMap lower).flatMap nfd))) := rfl

lemma slugPost_length_le (l : List Char) : (slugPost l).length ≤ 67 := by
  rw [slugPost]
  exact List.length_take_le 67 _

lemma mem_trimDashes {c : Char} {l : List Char} (h : c ∈ trimDashes l) : c ∈ l := by
  have h1 : c ∈ l.dropWhile (· == '-') := mem_dropTrailingDashes _ h
  exact (List.dropWhile_sublist _).subset h1

lemma slugPost_all_slug {l : List Char} {c : Char} (h : c ∈ slugPost l) :
    isSlugChar c = true := by
  have h1 : c ∈ trimDashes (collapseDashes (List.filter isSlugChar l)) :=
    (List.take_sublist _ _).subset h
  have h2 : c ∈ collapseDashes (List.filter isSlugChar l) := mem_trimDashes h1
  rcases mem_collapseDashAux _ _ h2 with h3 | h3
  · subst h3; exact dash_slugChar
  · exact (List.mem_filter.1 h3).2

lemma head?_dropWhile_not {p : Char → Bool} : ∀ (l : List Char) (c : Char),
    (l.dropWhile p).head? = some c → p c = false := by
  intro l
  induction l with
  | nil => simp
  | cons d cs ih =>
    intro c h
    rw [List.dropWhile_cons] at h
    split at h
    · exact ih c h
    · rename_i hd
      simp only [List.head?_cons, Option.some.injEq] at h
      subst h
      simpa using hd

lemma head?_prefix {l₁ l₂ : List Char} {c : Char} (hp : l₁ <+: l₂)
    (h : l₁.head? = some c) : l₂.head? = some c := by
  rcases hp with ⟨t, rfl⟩
  cases l₁ with
  | nil => simp at h
  | cons d cs => simpa using h

lemma head?_trimDashes {l : List Char} {c : Char}
    (h : (trimDashes l).head? = some c) : c ≠ '-' := by
  have h1 : (l.dropWhile (· == '-')).head? = some c :=
    head?_prefix (dropTrailingDashes_prefix_self _) h
  have := head?_dropWhile_not _ _ h1
  simpa using this

lemma slugPost_head {l : List Char} {c : Char}
    (h : (slugPost l).head? = some c) : c ≠ '-' := by
  have h67 : (67 : ℕ) ≠ 0 := by norm_num
  rw [slugPost, head?_take h67] at h
  exact head?_trimDashes h

lemma noDoubleDash_trimDashes {l : List Char} (h : noDoubleDash l = true) :
    noDoubleDash (trimDashes l) = true := by
  have h1 : noDoubleDash (l.dropWhile (· == '-')) = true := noDoubleDash_dropWhile l h
  have hp := dropTrailingDashes_prefix_self (l.dropWhile (· == '-'))
  rw [List.prefix_iff_eq_take] at hp
  rw [trimDashes, hp]
  exact noDoubleDash_take _ _ h1

lemma slugPost_noDoubleDash (l : List Char) : noDoubleDash (slugPost l) = true := by
  rw [slugPost]
  exact noDoubleDash_take _ _ (noDoubleDash_trimDashes (noDoubleDash_collapseDashAux false _))

lemma slugPost_getLast {l : List Char} (h : (slugPost l).getLast? = some '-') :
    (slugPost l).length = 67 := by
  rcases Nat.lt_or_ge (trimDashes (collapseDashes (List.filter isSlugChar l))).length 67 with
    hlt | hge
  · exfalso
    rw [slugPost, List.take_of_length_le (Nat.le_of_lt hlt)] at h
    exact getLast?_dropTrailingDashes _ _ h rfl
  · rw [slugPost, List.length_take]
    omega

/-! ### Fixed points of the pipeline stages -/

lemma flatMap_fixed {f : Char → List Char} : ∀ l : List Char,
    (∀ c ∈ l, f c = [c]) → l.flatMap f = l := by
  intro l
  induction l with
  | nil => simp
  | cons c cs ih =>
    intro h
    rw [List.flatMap_cons, h c (List.mem_cons_self _ _),
      ih (fun d hd => h d (List.mem_cons_of_mem _ hd))]
    rfl

lemma stripCombining_fixed {l : List Char}
    (h : ∀ c ∈ l, isCombiningMark c = false) : stripCombining l = l := by
  rw [stripCombining, List.filter_eq_self]
  intro a ha
  simp [h a ha]

lemma collapseWsAux_fixed {l : List Char}
    (h : ∀ c ∈ l, isJsWhitespace c = false) : ∀ b, collapseWsAux b l = l := by
  induction l with
  | nil => intro b; rfl
  | cons c cs ih =>
    intro b
    rw [collapseWsAux]
    rw [if_neg (by simp [h c (List.mem_cons_self _ _)])]
    rw [ih (fun d hd => h d (List.mem_cons_of_mem _ hd))]

lemma collapseDashAux_fixed {l : List Char} (h : noDoubleDash l = true) :
    collapseDashAux false l = l ∧
      ((∀ c, l.head? = some c → c ≠ '-') → collapseDashAux true l = l) := by
  induction l with
  | nil => exact ⟨rfl, fun _ => rfl⟩
  | cons c cs ih =>
    rcases (noDoubleDash_cons_iff c cs).1 h with ⟨h1, h2⟩
    rcases ih h1 with ⟨ihf, iht⟩
    constructor
    · rw [collapseDashAux]
      by_cases hc : c = '-'
      · subst hc
        have : collapseDashAux true cs = cs := by
          apply iht
          intro d hd hd'
          exact h2 rfl (hd' ▸ hd)
        show '-' :: collapseDashAux true cs = '-' :: cs
        rw [this]
      · rw [if_neg (by simpa using hc), ihf]
    · intro hh
      rw [collapseDashAux]
      have hc : c ≠ '-' := hh c rfl
      rw [if_neg (by simpa using hc), ihf]

lemma dropWhile_dash_fixed {l : List Char}
    (h : ∀ c, l.head? = some c → c ≠ '-') : l.dropWhile (· == '-') = l := by
  cases l with
  | nil => rfl
  | cons c cs =>
    rw [List.dropWhile_cons, if_neg (by simpa using h c rfl)]

lemma length_dropTrailingDashes_le (l : List Char) :
    (dropTrailingDashes l).length ≤ l.length :=
  (dropTrailingDashes_prefix_self l).length_le

/-- Sanitizer output is untouched by every stage of a second sanitizer
pass except the trailing-dash trim: for a list of slug characters with
no leading dash and no doubled dash, running the sanitizer equals
stripping the trailing dash run (which the 67-character cut may have
exposed). -/
lemma sanitize_canonical (lower nfd : Char → List Char)
    (hl : ∀ c, isSlugChar c = true → lower c = [c])
    (hn : ∀ c, isSlugChar c = true → nfd c = [c])
    {s : List Char} (hslug : ∀ c ∈ s, isSlugChar c = true)
    (hhead : ∀ c, s.head? = some c → c ≠ '-')
    (hdd : noDoubleDash s = true)
    (hlen : s.length ≤ 67) :
    sanitizeCompanyName lower nfd s = dropTrailingDashes s := by
  rw [sanitizeCompanyName]
  rw [flatMap_fixed s (fun c hc => hl c (hslug c hc))]
  rw [flatMap_fixed s (fun c hc => hn c (hslug c hc))]
  rw [stripCombining_fixed (fun c hc => slugChar_not_combining (hslug c hc))]
  rw [collapseWhitespace,
    collapseWsAux_fixed (fun c hc => slugChar_not_ws (hslug c hc)) false]
  rw [List.filter_eq_self.2 hslug]
  rw [collapseDashes, (collapseDashAux_fixed hdd).1]
  rw [trimDashes, dropWhile_dash_fixed hhead]
  exact List.take_of_length_le
    (le_trans (length_dropTrailingDashes_le s) hlen)

/-- C2: the sanitizer output is bounded to 67 characters, is made only
of the characters in the class `[a-z0-9-]`, has no leading dash, no
doubled dash, and a trailing dash only when the output is exactly 67
characters long (the truncation boundary); 100 letters a sanitize to
exactly 67, and an input whose surviving characters are only the
dashes produced from whitespace (pure emoji, pure punctuation, pure
whitespace) sanitizes to the empty string. -/
theorem sanitize_bounded_output (lower nfd : Char → List Char) (raw : List Char) :
    (sanitizeCompanyName lower nfd raw).length ≤ 67 ∧
    (∀ c ∈ sanitizeCompanyName lower nfd raw, isSlugChar c = true) ∧
    (∀ c, (sanitizeCompanyName lower nfd raw).head? = some c → c ≠ '-') ∧
    noDoubleDash (sanitizeCompanyName lower nfd raw) = true ∧
    ((sanitizeCompanyName lower nfd raw).getLast? = some '-' →
      (sanitizeCompanyName lower nfd raw).length = 67) ∧
    (lower 'a' = ['a'] → nfd 'a' = ['a'] →
      sanitizeCompanyName lower nfd (List.replicate 100 'a') = List.replicate 67 'a') ∧
    ((∀ c ∈ List.filter isSlugChar
        (collapseWhitespace (stripCombining ((raw.flatMap lower).flatMap nfd))), c = '-') →
      sanitizeCompanyName lower nfd raw = []) := by
  refine ⟨?_, ?_, ?_, ?_, ?_, ?_, ?_⟩
  · rw [sanitizeCompanyName_eq_slugPost]; exact slugPost_length_le _
  · rw [sanitizeCompanyName_eq_slugPost]; exact fun c hc => slugPost_all_slug hc
  · rw [sanitizeCompanyName_eq_slugPost]; exact fun c hc => slugPost_head hc
  · rw [sanitizeCompanyName_eq_slugPost]; exact slugPost_noDoubleDash _
  · rw [sanitizeCompanyName_eq_slugPost]; exact slugPost_getLast
  · intro hl hn
    have h1 : (List.replicate 100 'a').flatMap lower = List.replicate 100 'a' :=
      flatMap_fixed _ (fun c hc => by rw [List.eq_of_mem_replicate hc]; exact hl)
    have h2 : (List.replicate 100 'a').flatMap nfd = List.replicate 100 'a' :=
      flatMap_fixed _ (fun c hc => by rw [List.eq_of_mem_replicate hc]; exact hn)
    rw [sanitizeCompanyName, h1, h2]
    decide
  · intro hdash
    rw [sanitizeCompanyName]
    have hall : ∀ c ∈ collapseDashAux false (List.filter isSlugChar
        (collapseWhitespace (stripCombining ((raw.flatMap lower).flatMap nfd)))), c = '-' := by
      intro c hc
      rcases mem_collapseDashAux false _ hc with h | h
      · exact h
      · exact hdash c h
    rw [collapseDashes] at *
    rw [trimDashes, List.dropWhile_eq_nil_iff.2 (fun c hc => by simp [hall c hc])]
    rfl

/-- C1 counterexample: sanitizing 66 letters a, a space and a letter b
gives 66 a-characters followed by a dash (the truncation cut falls
right after the dash the space became), and a second sanitizer pass
strips that trailing dash, so applying the sanitizer twice differs
from applying it once. -/
theorem sanitize_not_idempotent :
    sanitizeCompanyName idCharMap idCharMap
        (sanitizeCompanyName idCharMap idCharMap (List.replicate 66 'a' ++ [' ', 'b'])) ≠
      sanitizeCompanyName idCharMap idCharMap (List.replicate 66 'a' ++ [' ', 'b']) := by
  decide

/-- C1 (amended): a second sanitizer pass only strips the trailing dash
that the 67-character truncation may have exposed; whenever the first
output does not end in a dash (in particular whenever it is shorter
than 67 characters) the sanitizer is idempotent.  The hypotheses state
the Unicode facts that the cover maps fix the characters of the class
`[a-z0-9-]`. -/
theorem sanitize_idempotent_amended (lower nfd : Char → List Char)
    (hl : ∀ c, isSlugChar c = true → lower c = [c])
    (hn : ∀ c, isSlugChar c = true → nfd c = [c]) (raw : List Char) :
    sanitizeCompanyName lower nfd (sanitizeCompanyName lower nfd raw) =
      dropTrailingDashes (sanitizeCompanyName lower nfd raw) ∧
    ((sanitizeCompanyName lower nfd raw).getLast? ≠ some '-' →
      sanitizeCompanyName lower nfd (sanitizeCompanyName lower nfd raw) =
        sanitizeCompanyName lower nfd raw) := by
  have hslug : ∀ c ∈ sanitizeCompanyName lower nfd raw, isSlugChar c = true := by
    rw [sanitizeCompanyName_eq_slugPost]
    exact fun c hc => slugPost_all_slug hc
  have hhead : ∀ c, (sanitizeCompanyName lower nfd raw).head? = some c → c ≠ '-' := by
    rw [sanitizeCompanyName_eq_slugPost]
    exact fun c hc => slugPost_head hc
  have hdd : noDoubleDash (sanitizeCompanyName lower nfd raw) = true := by
    rw [sanitizeCompanyName_eq_slugPost]
    exact slugPost_noDoubleDash _
  have hlen : (sanitizeCompanyName lower nfd raw).length ≤ 67 := by
    rw [sanitizeCompanyName_eq_slugPost]
    exact slugPost_length_le _
  have hmain := sanitize_canonical lower nfd hl hn hslug hhead hdd hlen
  refine ⟨hmain, fun hne => ?_⟩
  rw [hmain]
  apply dropTrailingDashes_of_getLast
  intro c hc hc'
  exact hne (hc' ▸ hc)

/-- Witness for the amended C1 theorem at a concrete input. -/
theorem sanitize_idempotent_amended_witness :
    sanitizeCompanyName idCharMap idCharMap
        (sanitizeCompanyName idCharMap idCharMap ("acme corp".toList)) =
      sanitizeCompanyName idCharMap idCharMap ("acme corp".toList) :=
  (sanitize_idempotent_amended idCharMap idCharMap
    (fun _ _ => rfl) (fun _ _ => rfl) ("acme corp".toList)).2 (by decide)

/-- Witness for the C2 theorem: the implication clauses evaluated at
concrete inputs, with the hypotheses discharged. -/
theorem sanitize_bounded_output_witness :
    sanitizeCompanyName idCharMap idCharMap (List.replicate 100 'a') =
        List.replicate 67 'a' ∧
    sanitizeCompanyName idCharMap idCharMap ("🚀🌟✨".toList) = [] :=
  ⟨(sanitize_bounded_output idCharMap idCharMap []).2.2.2.2.2.1 rfl rfl,
   (sanitize_bounded_output idCharMap idCharMap ("🚀🌟✨".toList)).2.2.2.2.2.2 (by decide)⟩

/-! ## Rate limiter: worker/src/lib/rateLimiter.ts, RateLimiter

The store is modelled as a map from keys to entries; the ambient clock
`Date.now()` is passed explicitly as `now` (epoch milliseconds).
`limit` is an `Int` because the source handles `limit <= 0`
explicitly. -/

structure RateLimitEntry where
  count : Nat
  resetTime : Nat
deriving Repr, DecidableEq

structure RateLimitResult where
  allowed : Bool
  remaining : Int
  resetAt : Nat
deriving Repr, DecidableEq

def RateStore : Type := String → Option RateLimitEntry

def RateStore.set (s : RateStore) (k : String) (e : RateLimitEntry) : RateStore :=
  fun k2 => if k2 = k then some e else s k2

def RateStore.empty : RateStore := fun _ => none

/-- `RateLimiter.checkAndIncrement` from the source: reject when
`limit <= 0`; start a fresh window (count 1) when no entry exists or
the stored window has expired (`now >= entry.resetTime`); reject
without mutating when `entry.count >= limit`; otherwise increment.
Returns the result together with the updated store. -/
def checkAndIncrement (store : RateStore) (key : String) (limit : Int)
    (windowSec now : Nat) : RateLimitResult × RateStore :=
  let windowMs := windowSec * 1000
  if limit ≤ 0 then
    ({ allowed := false, remaining := 0, resetAt := now + windowMs }, store)
  else
    match store key with
    | none =>
      let newEntry : RateLimitEntry := { count := 1, resetTime := now + windowMs }
      ({ allowed := true, remaining := max 0 (limit - 1), resetAt := newEntry.resetTime },
        store.set key newEntry)
    | some entry =>
      if now ≥ entry.resetTime then
        let newEntry : RateLimitEntry := { count := 1, resetTime := now + windowMs }
        ({ allowed := true, remaining := max 0 (limit - 1), resetAt := newEntry.resetTime },
          store.set key newEntry)
      else if (entry.count : Int) ≥ limit then
        ({ allowed := false, remaining := 0, resetAt := entry.resetTime }, store)
      else
        let newEntry : RateLimitEntry :=
          { count := entry.count + 1, resetTime := entry.resetTime }
        ({ allowed := true, remaining := max 0 (limit - (entry.count + 1 : Nat)),
            resetAt := entry.resetTime }, store.set key newEntry)

/-- Run a sequence of `checkAndIncrement` calls on the same key, limit
and window, at the given sequence of clock readings. -/
def runCalls (store : RateStore) (key : String) (limit : Int) (windowSec : Nat) :
    List Nat → List RateLimitResult × RateStore
  | [] => ([], store)
  | t :: ts =>
    let step := checkAndIncrement store key limit windowSec t
    let rest := runCalls step.2 key limit windowSec ts
    (step.1 :: rest.1, rest.2)

lemma RateStore.set_same (s : RateStore) (k : String) (e : RateLimitEntry) :
    (s.set k e) k = some e := by
  simp [RateStore.set]

lemma RateStore.set_other (s : RateStore) {k k2 : String} (e : RateLimitEntry)
    (h : k2 ≠ k) : (s.set k e) k2 = s k2 := by
  simp [RateStore.set, h]

/-! ### Branch lemmas for checkAndIncrement -/

lemma checkAndIncrement_fresh {store : RateStore} {key : String} {limit : Int}
    {windowSec now : Nat} (hpos : 0 < limit)
    (hfresh : store key = none ∨ ∃ e, store key = some e ∧ e.resetTime ≤ now) :
    checkAndIncrement store key limit windowSec now =
      ({ allowed := true, remaining := limit - 1, resetAt := now + windowSec * 1000 },
        store.set key { count := 1, resetTime := now + windowSec * 1000 }) := by
  have hmax : max 0 (limit - 1) = limit - 1 := by omega
  rcases hfresh with h | ⟨e, he, hexp⟩
  · rw [checkAndIncrement, if_neg (by omega), h]
    simp [hmax]
  · rw [checkAndIncrement, if_neg (by omega), he]
    simp only
    rw [if_pos hexp]
    simp [hmax]

lemma checkAndIncrement_blocked {store : RateStore} {key : String} {limit : Int}
    {windowSec now : Nat} {e : RateLimitEntry} (hpos : 0 < limit)
    (he : store key = some e) (hwin : now < e.resetTime)
    (hcount : (e.count : Int) ≥ limit) :
    checkAndIncrement store key limit windowSec now =
      ({ allowed := false, remaining := 0, resetAt := e.resetTime }, store) := by
  rw [checkAndIncrement, if_neg (by omega), he]
  simp only
  rw [if_neg (by omega), if_pos hcount]

lemma checkAndIncrement_increment {store : RateStore} {key : String} {limit : Int}
    {windowSec now : Nat} {e : RateLimitEntry} (hpos : 0 < limit)
    (he : store key = some e) (hwin : now < e.resetTime)
    (hcount : (e.count : Int) < limit) :
    checkAndIncrement store key limit windowSec now =
      ({ allowed := true, remaining := limit - (e.count + 1 : Nat),
          resetAt := e.resetTime },
        store.set key { count := e.count + 1, resetTime := e.resetTime }) := by
  have hmax : max 0 (limit - (e.count + 1 : Nat)) = limit - (e.count + 1 : Nat) := by
    push_cast
    omega
  rw [checkAndIncrement, if_neg (by omega), he]
  simp only
  rw [if_neg (by omega), if_neg (by omega), hmax]

/-- C9: a call with a non-positive limit is always rejected with
remaining 0 and a reset time of now plus the window in milliseconds,
and the store is left untouched. -/
theorem rateLimiter_nonpositive_limit (store : RateStore) (key : String)
    (limit : Int) (windowSec now : Nat) (h : limit ≤ 0) :
    checkAndIncrement store key limit windowSec now =
      ({ allowed := false, remaining := 0, resetAt := now + windowSec * 1000 }, store) := by
  rw [checkAndIncrement, if_pos h]

/-- Witness for C9 at limit 0. -/
theorem rateLimiter_nonpositive_limit_witness :
    checkAndIncrement RateStore.empty "ip:203.0.113.7" 0 3600 1700000000000 =
      ({ allowed := false, remaining := 0, resetAt := 1700000000000 + 3600 * 1000 },
        RateStore.empty) :=
  rateLimiter_nonpositive_limit RateStore.empty "ip:203.0.113.7" 0 3600 1700000000000
    (by decide)

/-- One `checkAndIncrement` call preserves the invariant that the
stored count for the key never exceeds the limit. -/
lemma checkAndIncrement_countInv {store : RateStore} {key : String} {limit : Int}
    (windowSec now : Nat)
    (hinv : ∀ e : RateLimitEntry, store key = some e → (e.count : Int) ≤ limit) :
    ∀ e : RateLimitEntry,
      (checkAndIncrement store key limit windowSec now).2 key = some e →
      (e.count : Int) ≤ limit := by
  intro e he
  by_cases hl : limit ≤ 0
  · rw [rateLimiter_nonpositive_limit store key limit windowSec now hl] at he
    exact hinv e he
  · have hpos : 0 < limit := by omega
    rcases hst : store key with _ | e0
    · rw [checkAndIncrement_fresh hpos (Or.inl hst)] at he
      dsimp only at he
      rw [RateStore.set_same] at he
      cases he
      simpa using hpos
    · by_cases hexp : e0.resetTime ≤ now
      · rw [checkAndIncrement_fresh hpos (Or.inr ⟨e0, hst, hexp⟩)] at he
        dsimp only at he
        rw [RateStore.set_same] at he
        cases he
        simpa using hpos
      · by_cases hcnt : (e0.count : Int) ≥ limit
        · rw [checkAndIncrement_blocked hpos hst (by omega) hcnt] at he
          exact hinv e he
        · rw [checkAndIncrement_increment hpos hst (by omega) (by omega)] at he
          dsimp only at he
          rw [RateStore.set_same] at he
          cases he
          push_cast
          omega

/-- Any sequence of calls with a fixed limit preserves the count
invariant. -/
lemma runCalls_countInv {key : String} {limit : Int} (windowSec : Nat) :
    ∀ (ts : List Nat) (store : RateStore),
      (∀ e : RateLimitEntry, store key = some e → (e.count : Int) ≤ limit) →
      ∀ e : RateLimitEntry,
        (runCalls store key limit windowSec ts).2 key = some e →
        (e.count : Int) ≤ limit := by
  intro ts
  induction ts with
  | nil => intro store hinv e he; exact hinv e he
  | cons t ts ih =>
    intro store hinv e he
    exact ih _ (checkAndIncrement_countInv windowSec t hinv) e he

/-- C5: the limiter invariant and key independence.  A rejected call
never mutates the store; a blocked call (count at the limit inside a
live window) returns false without touching count or window end; a
call preserves the invariant that the stored count never exceeds a
positive limit, hence any sequence of calls with that limit preserves
it; and calls on one key neither read nor write any other key. -/
theorem rateLimiter_invariant_independence (store : RateStore) (key : String)
    (limit : Int) (windowSec now : Nat) :
    ((checkAndIncrement store key limit windowSec now).1.allowed = false →
      (checkAndIncrement store key limit windowSec now).2 = store) ∧
    (∀ e : RateLimitEntry, 0 < limit → store key = some e → now < e.resetTime →
      (e.count : Int) ≥ limit →
      checkAndIncrement store key limit windowSec now =
        ({ allowed := false, remaining := 0, resetAt := e.resetTime }, store)) ∧
    ((∀ e : RateLimitEntry, store key = some e → (e.count : Int) ≤ limit) →
      ∀ e : RateLimitEntry,
        (checkAndIncrement store key limit windowSec now).2 key = some e →
        (e.count : Int) ≤ limit) ∧
    (∀ ts : List Nat,
      (∀ e : RateLimitEntry, store key = some e → (e.count : Int) ≤ limit) →
      ∀ e : RateLimitEntry,
        (runCalls store key limit windowSec ts).2 key = some e →
        (e.count : Int) ≤ limit) ∧
    (∀ k2 : String, k2 ≠ key →
      (checkAndIncrement store key limit windowSec now).2 k2 = store k2) ∧
    (∀ s2 : RateStore, s2 key = store key →
      (checkAndIncrement s2 key limit windowSec now).1 =
        (checkAndIncrement store key limit windowSec now).1) := by
  by_cases hl : limit ≤ 0
  · refine ⟨?_, fun e hpos _ _ _ => by omega,
      fun hinv => checkAndIncrement_countInv windowSec now hinv,
      fun ts hinv => runCalls_countInv windowSec ts store hinv, ?_, fun s2 _ => ?_⟩
    · rw [rateLimiter_nonpositive_limit store key limit windowSec now hl]
      exact fun _ => rfl
    · rw [rateLimiter_nonpositive_limit store key limit windowSec now hl]
      exact fun k2 _ => rfl
    · rw [rateLimiter_nonpositive_limit s2 key limit windowSec now hl,
        rateLimiter_nonpositive_limit store key limit windowSec now hl]
  · have hpos : 0 < limit := by omega
    have hbranch : ∀ s2 : RateStore, s2 key = store key →
        checkAndIncrement s2 key limit windowSec now =
          ((checkAndIncrement store key limit windowSec now).1,
            (checkAndIncrement s2 key limit windowSec now).2) := by
      intro s2 h2
      rcases hst : store key with _ | e
      · rw [checkAndIncrement_fresh hpos (Or.inl hst),
          checkAndIncrement_fresh hpos (Or.inl (h2.trans hst))]
      · by_cases hexp : e.resetTime ≤ now
        · rw [checkAndIncrement_fresh hpos (Or.inr ⟨e, hst, hexp⟩),
            checkAndIncrement_fresh hpos (Or.inr ⟨e, h2.trans hst, hexp⟩)]
        · by_cases hcnt : (e.count : Int) ≥ limit
          · rw [checkAndIncrement_blocked hpos hst (by omega) hcnt,
              checkAndIncrement_blocked hpos (h2.trans hst) (by omega) hcnt]
          · rw [checkAndIncrement_increment hpos hst (by omega) (by omega),
              checkAndIncrement_increment hpos (h2.trans hst) (by omega) (by omega)]
    refine ⟨?_, ?_, fun hinv => checkAndIncrement_countInv windowSec now hinv,
      fun ts hinv => runCalls_countInv windowSec ts store hinv, ?_, ?_⟩
    · intro hfalse
      rcases hst : store key with _ | e
      · rw [checkAndIncrement_fresh hpos (Or.inl hst)] at hfalse ⊢
        cases hfalse
      · by_cases hexp : e.resetTime ≤ now
        · rw [checkAndIncrement_fresh hpos (Or.inr ⟨e, hst, hexp⟩)] at hfalse ⊢
          cases hfalse
        · by_cases hcnt : (e.count : Int) ≥ limit
          · rw [checkAndIncrement_blocked hpos hst (by omega) hcnt]
          · rw [checkAndIncrement_increment hpos hst (by omega) (by omega)] at hfalse ⊢
            cases hfalse
    · intro e _ he hwin hcnt
      exact checkAndIncrement_blocked hpos he hwin hcnt
    · intro k2 hk2
      rcases hst : store key with _ | e0
      · rw [checkAndIncrement_fresh hpos (Or.inl hst)]
        exact RateStore.set_other store _ hk2
      · by_cases hexp : e0.resetTime ≤ now
        · rw [checkAndIncrement_fresh hpos (Or.inr ⟨e0, hst, hexp⟩)]
          exact RateStore.set_other store _ hk2
        · by_cases hcnt : (e0.count : Int) ≥ limit
          · rw [checkAndIncrement_blocked hpos hst (by omega) hcnt]
          · rw [checkAndIncrement_increment hpos hst (by omega) (by omega)]
            exact RateStore.set_other store _ hk2
    · intro s2 h2
      rw [hbranch s2 h2]

/-- Witness for C5: the blocked call at the limit leaves the store
untouched, the count invariant holds after a single call and after a
sequence, writes are invisible to other keys, and the result depends
only on the stored entry of the call's own key. -/
theorem rateLimiter_invariant_independence_witness :
    (checkAndIncrement (RateStore.empty.set "email:user@acme.com" ⟨2, 5000⟩)
        "email:user@acme.com" 2 10 100).2 =
      RateStore.empty.set "email:user@acme.com" ⟨2, 5000⟩ ∧
    checkAndIncrement (RateStore.empty.set "email:user@acme.com" ⟨2, 5000⟩)
        "email:user@acme.com" 2 10 100 =
      ({ allowed := false, remaining := 0, resetAt := 5000 },
        RateStore.empty.set "email:user@acme.com" ⟨2, 5000⟩) ∧
    ((2 : Nat) : Int) ≤ 2 ∧
    ((1 : Nat) : Int) ≤ 2 ∧
    (checkAndIncrement (RateStore.empty.set "email:user@acme.com" ⟨2, 5000⟩)
        "email:user@acme.com" 2 10 100).2 "ip:198.51.100.1" =
      (RateStore.empty.set "email:user@acme.com" ⟨2, 5000⟩) "ip:198.51.100.1" ∧
    (checkAndIncrement
        ((RateStore.empty.set "ip:198.51.100.1" ⟨9, 9⟩).set "email:user@acme.com" ⟨2, 5000⟩)
        "email:user@acme.com" 2 10 100).1 =
      (checkAndIncrement (RateStore.empty.set "email:user@acme.com" ⟨2, 5000⟩)
        "email:user@acme.com" 2 10 100).1 := by
  have thm := rateLimiter_invariant_independence
    (RateStore.empty.set "email:user@acme.com" ⟨2, 5000⟩) "email:user@acme.com" 2 10 100
  have hinv : ∀ e : RateLimitEntry,
      (RateStore.empty.set "email:user@acme.com" ⟨2, 5000⟩) "email:user@acme.com" = some e →
      (e.count : Int) ≤ 2 := by
    intro e he
    have h2 : (⟨2, 5000⟩ : RateLimitEntry) = e :=
      Option.some_injective _ (show some (⟨2, 5000⟩ : RateLimitEntry) = some e from he)
    rw [← h2]
    decide
  exact ⟨thm.1 (by decide),
    thm.2.1 ⟨2, 5000⟩ (by decide) rfl (by decide) (by decide),
    thm.2.2.1 hinv ⟨2, 5000⟩ (by decide),
    thm.2.2.2.1 [6000] hinv ⟨1, 16000⟩ (by decide),
    thm.2.2.2.2.1 "ip:198.51.100.1" (by decide),
    thm.2.2.2.2.2 _ (by decide)⟩

/-- Core run lemma: starting from a live entry with count `c`, each of
a sequence of in-window calls increments the count and is allowed,
with the remaining quota counting down. -/
lemma runCalls_in_window {key : String} {limit : Int} (windowSec : Nat) {R : Nat} :
    ∀ (ts : List Nat) (store : RateStore) (c : Nat),
      store key = some ⟨c, R⟩ → (∀ t ∈ ts, t < R) → 0 < c →
      (c : Int) + ts.length ≤ limit →
      (runCalls store key limit windowSec ts).1 =
        (List.range ts.length).map
          (fun i => ⟨true, limit - (c + i + 1 : Nat), R⟩) ∧
      (runCalls store key limit windowSec ts).2 key = some ⟨c + ts.length, R⟩ := by
  intro ts
  induction ts with
  | nil =>
    intro store c hst _ _ _
    simpa [runCalls] using hst
  | cons t ts ih =>
    intro store c hst hts hc hle
    have hlen : ((t :: ts).length : Int) = ts.length + 1 := by
      simp
    have hcnt : (c : Int) < limit := by
      rw [hlen] at hle
      omega
    have hstep : checkAndIncrement store key limit windowSec t =
        ({ allowed := true, remaining := limit - ((c + 1 : Nat) : Int), resetAt := R },
          store.set key ⟨c + 1, R⟩) :=
      checkAndIncrement_increment (by omega) hst (hts t (List.mem_cons_self _ _)) hcnt
    have hst2 : (checkAndIncrement store key limit windowSec t).2 key =
        some ⟨c + 1, R⟩ := by
      rw [hstep]
      exact RateStore.set_same _ _ _
    have hrest := ih (checkAndIncrement store key limit windowSec t).2 (c + 1) hst2
      (fun t2 ht2 => hts t2 (List.mem_cons_of_mem _ ht2)) (by omega)
      (by rw [hlen] at hle; push_cast; omega)
    constructor
    · show (checkAndIncrement store key limit windowSec t).1 ::
        (runCalls (checkAndIncrement store key limit windowSec t).2 key limit windowSec ts).1 = _
      rw [hrest.1, hstep]
      simp only [List.length_cons]
      rw [List.range_succ_eq_map, List.map_cons, List.map_map]
      refine congrArg₂ List.cons ?_ ?_
      · simp
      · apply List.map_congr_left
        intro i _
        simp only [Function.comp_apply]
        congr 2
        omega
    · show (runCalls (checkAndIncrement store key limit windowSec t).2 key limit windowSec ts).2
        key = _
      rw [hrest.2]
      have : c + 1 + ts.length = c + (ts.length + 1) := by omega
      simp [this]

/-- C4: full window lifecycle for a fixed key, positive limit `L` and
window.  Starting from no record or an expired one, the first `L`
calls inside the window are all allowed with `remaining` counting down
from `L - 1` to `0`; any further call before the stored window end is
rejected with `remaining = 0`; and a call at or after the stored
window end is allowed again with the stored count restarted at 1. -/
theorem rateLimiter_window_lifecycle (L windowSec t0 : Nat) (ts : List Nat)
    (store : RateStore) (key : String) (hL : 0 < L)
    (hstart : store key = none ∨
      ∃ e : RateLimitEntry, store key = some e ∧ e.resetTime ≤ t0)
    (hts : ∀ t ∈ ts, t < t0 + windowSec * 1000)
    (hlen : ts.length = L - 1) :
    (runCalls store key (L : Int) windowSec (t0 :: ts)).1 =
      (List.range L).map
        (fun i => ⟨true, (L : Int) - ((i + 1 : Nat) : Int), t0 + windowSec * 1000⟩) ∧
    (runCalls store key (L : Int) windowSec (t0 :: ts)).2 key =
      some ⟨L, t0 + windowSec * 1000⟩ ∧
    (∀ t2, t2 < t0 + windowSec * 1000 →
      (checkAndIncrement (runCalls store key (L : Int) windowSec (t0 :: ts)).2 key (L : Int)
          windowSec t2).1 = ⟨false, 0, t0 + windowSec * 1000⟩) ∧
    (∀ t3, t0 + windowSec * 1000 ≤ t3 →
      (checkAndIncrement (runCalls store key (L : Int) windowSec (t0 :: ts)).2 key (L : Int)
          windowSec t3).1 =
        ⟨true, (L : Int) - 1, t3 + windowSec * 1000⟩ ∧
      (checkAndIncrement (runCalls store key (L : Int) windowSec (t0 :: ts)).2 key (L : Int)
          windowSec t3).2 key = some ⟨1, t3 + windowSec * 1000⟩) := by
  obtain ⟨M, rfl⟩ : ∃ M, L = M + 1 := ⟨L - 1, by omega⟩
  have hlenM : ts.length = M := by omega
  have hpos : (0 : Int) < ((M + 1 : Nat) : Int) := by push_cast; omega
  have hstep : checkAndIncrement store key ((M + 1 : Nat) : Int) windowSec t0 =
      ({ allowed := true, remaining := ((M + 1 : Nat) : Int) - 1,
          resetAt := t0 + windowSec * 1000 },
        store.set key ⟨1, t0 + windowSec * 1000⟩) :=
    checkAndIncrement_fresh hpos hstart
  have hst1 : (checkAndIncrement store key ((M + 1 : Nat) : Int) windowSec t0).2 key =
      some ⟨1, t0 + windowSec * 1000⟩ := by
    rw [hstep]
    exact RateStore.set_same _ _ _
  have hle1 : ((1 : Nat) : Int) + (ts.length : Int) ≤ ((M + 1 : Nat) : Int) := by
    push_cast
    omega
  have hrun := runCalls_in_window windowSec ts
    (checkAndIncrement store key ((M + 1 : Nat) : Int) windowSec t0).2 1 hst1 hts
    (by omega) hle1
  have hstore2 : (runCalls store key ((M + 1 : Nat) : Int) windowSec (t0 :: ts)).2 key =
      some ⟨M + 1, t0 + windowSec * 1000⟩ := by
    show (runCalls (checkAndIncrement store key ((M + 1 : Nat) : Int) windowSec t0).2 key
      ((M + 1 : Nat) : Int) windowSec ts).2 key = _
    rw [hrun.2, hlenM]
    have h1 : 1 + M = M + 1 := by omega
    rw [h1]
  refine ⟨?_, hstore2, ?_, ?_⟩
  · show (checkAndIncrement store key ((M + 1 : Nat) : Int) windowSec t0).1 ::
      (runCalls (checkAndIncrement store key ((M + 1 : Nat) : Int) windowSec t0).2 key
        ((M + 1 : Nat) : Int) windowSec ts).1 = _
    rw [hrun.1, hstep, hlenM]
    rw [List.range_succ_eq_map, List.map_cons, List.map_map]
    refine congrArg₂ List.cons ?_ ?_
    · simp
    · apply List.map_congr_left
      intro i _
      simp only [Function.comp_apply]
      congr 2
      omega
  · intro t2 ht2
    rw [checkAndIncrement_blocked hpos hstore2 ht2 (by push_cast; omega)]
  · intro t3 ht3
    have hstep3 : checkAndIncrement
        (runCalls store key ((M + 1 : Nat) : Int) windowSec (t0 :: ts)).2 key
        ((M + 1 : Nat) : Int) windowSec t3 =
        ({ allowed := true, remaining := ((M + 1 : Nat) : Int) - 1,
            resetAt := t3 + windowSec * 1000 },
          ((runCalls store key ((M + 1 : Nat) : Int) windowSec (t0 :: ts)).2).set key
            ⟨1, t3 + windowSec * 1000⟩) :=
      checkAndIncrement_fresh hpos
        (Or.inr ⟨⟨M + 1, t0 + windowSec * 1000⟩, hstore2, ht3⟩)
    rw [hstep3]
    exact ⟨rfl, RateStore.set_same _ _ _⟩

/-- Witness for C4: the spec scenario limit 2, window 10 seconds, three
calls at t = 0 ms, 5 ms then a blocked call before the window end and
an allowed call at t = 11000 ms. -/
theorem rateLimiter_window_lifecycle_witness :
    (runCalls RateStore.empty "ip:203.0.113.7" 2 10 [0, 5]).1 =
      [⟨true, 1, 10000⟩, ⟨true, 0, 10000⟩] ∧
    (runCalls RateStore.empty "ip:203.0.113.7" 2 10 [0, 5]).2 "ip:203.0.113.7" =
      some ⟨2, 10000⟩ ∧
    (checkAndIncrement (runCalls RateStore.empty "ip:203.0.113.7" 2 10 [0, 5]).2
        "ip:203.0.113.7" 2 10 9999).1 = ⟨false, 0, 10000⟩ ∧
    (checkAndIncrement (runCalls RateStore.empty "ip:203.0.113.7" 2 10 [0, 5]).2
        "ip:203.0.113.7" 2 10 11000).1 = ⟨true, 1, 21000⟩ ∧
    (checkAndIncrement (runCalls RateStore.empty "ip:203.0.113.7" 2 10 [0, 5]).2
        "ip:203.0.113.7" 2 10 11000).2 "ip:203.0.113.7" = some ⟨1, 21000⟩ := by
  have h := rateLimiter_window_lifecycle 2 10 0 [5] RateStore.empty "ip:203.0.113.7"
    (by decide) (Or.inl rfl) (by decide) rfl
  have h4 := h.2.2.2 11000 (by decide)
  refine ⟨?_, ?_, ?_, ?_, ?_⟩
  · rw [show ((2 : Nat) : Int) = 2 from rfl] at h
    rw [h.1]
    decide
  · exact h.2.1
  · exact h.2.2.1 9999 (by decide)
  · exact h4.1
  · exact h4.2

/-! ## Slack client: worker/src/lib/slack.ts -/

/-- Outcome of one `conversations.create` network call as seen by
`createChannel` after `slackRequest`: an error object with code and
details, a success carrying the created channel, or an ok response
with no channel field. -/
inductive SlackCreateResponse where
  | err (error details : String)
  | okChannel (channelId channelName : String)
  | okNoChannel
deriving Repr, DecidableEq

/-- Result of `SlackClient.createChannel`. -/
inductive CreateChannelResult where
  | ok (channelId channelName : String)
  | error (error details : String)
deriving Repr, DecidableEq

def SlackCreateResponse.isNameTaken : SlackCreateResponse → Bool
  | .err e _ => e == "name_taken"
  | _ => false

/-- `createChannelName`: prefix the sanitized company name. -/
def createChannelName (sanitizedCompanyName : String) : String :=
  "ext-theguild-" ++ sanitizedCompanyName

/-- The channel name requested on a given attempt: the base name on
attempt 0, then the base suffixed with -2, -3, and so on. -/
def channelNameForAttempt (base : String) (attemptCount : Nat) : String :=
  if attemptCount = 0 then base else base ++ "-" ++ toString (attemptCount + 1)

def maxAttempts : Nat := 10

/-- The `while attemptCount < maxAttempts` loop of `createChannel`,
with `remaining = maxAttempts - attemptCount` as fuel.  `respond`
models the `conversations.create` endpoint as a function of the
network-call number and the requested name.  A `name_taken` error
moves to the next name variant; any other error returns immediately;
a success without a channel field is the `invalid_response` error;
running out of attempts is the distinct `max_attempts_exceeded`
error. -/
def createChannelLoop (respond : Nat → String → SlackCreateResponse) (base : String) :
    Nat → Nat → CreateChannelResult
  | _, 0 =>
    .error "max_attempts_exceeded"
      ("Failed to create channel after " ++ toString maxAttempts ++
        " attempts due to name collisions")
  | attemptCount, remaining + 1 =>
    match respond attemptCount (channelNameForAttempt base attemptCount) with
    | .err e d =>
      if e = "name_taken" then createChannelLoop respond base (attemptCount + 1) remaining
      else .error e d
    | .okChannel cid cname => .ok cid cname
    | .okNoChannel =>
      .error "invalid_response"
        "Channel creation succeeded but response format was unexpected"

/-- `SlackClient.createChannel` from the source. -/
def createChannel (respond : Nat → String → SlackCreateResponse)
    (sanitizedName : String) : CreateChannelResult :=
  createChannelLoop respond (createChannelName sanitizedName) 0 maxAttempts

/-- Skipping over an initial run of name collisions. -/
lemma createChannelLoop_skip (respond : Nat → String → SlackCreateResponse)
    (base : String) : ∀ (k a r : Nat), k ≤ r →
    (∀ i, i < k →
      (respond (a + i) (channelNameForAttempt base (a + i))).isNameTaken = true) →
    createChannelLoop respond base a r = createChannelLoop respond base (a + k) (r - k) := by
  intro k
  induction k with
  | zero => intro a r _ _; simp
  | succ k ih =>
    intro a r hkr htaken
    obtain ⟨r2, rfl⟩ : ∃ r2, r = r2 + 1 := ⟨r - 1, by omega⟩
    have h0 := htaken 0 (by omega)
    rw [Nat.add_zero] at h0
    rw [createChannelLoop]
    rcases hx : respond a (channelNameForAttempt base a) with ⟨e, d⟩ | ⟨cid, cname⟩ | _
    · rw [hx] at h0
      have he : e = "name_taken" := by
        simpa [SlackCreateResponse.isNameTaken] using h0
      show (if e = "name_taken" then createChannelLoop respond base (a + 1) r2
        else CreateChannelResult.error e d) = _
      rw [if_pos he]
      have hshift : ∀ i, i < k →
          (respond (a + 1 + i) (channelNameForAttempt base (a + 1 + i))).isNameTaken = true := by
        intro i hi
        have := htaken (i + 1) (by omega)
        have harith : a + (i + 1) = a + 1 + i := by omega
        rwa [harith] at this
      have := ih (a + 1) r2 (by omega) hshift
      rw [this]
      have h1 : a + 1 + k = a + (k + 1) := by omega
      have h2 : r2 - k = r2 + 1 - (k + 1) := by omega
      rw [h1, h2]
    · rw [hx] at h0
      simp [SlackCreateResponse.isNameTaken] at h0
    · rw [hx] at h0
      simp [SlackCreateResponse.isNameTaken] at h0

/-- C3: the collision-retry policy of `createChannel`.  After `k`
collisions (`k < 10`) the call numbered `k` requests the base name
suffixed with `-(k+1)` (the bare base name for `k = 0`), and its
outcome decides the result: a success is returned as is, a
non-collision error is returned immediately, and ten collisions yield
the distinct `max_attempts_exceeded` error.  In particular the name
tried on the fourth attempt carries the `-4` suffix. -/
theorem createChannel_collision_retry (respond : Nat → String → SlackCreateResponse)
    (s : String) :
    ((∀ i, i < 10 →
        (respond i (channelNameForAttempt (createChannelName s) i)).isNameTaken = true) →
      createChannel respond s =
        .error "max_attempts_exceeded"
          ("Failed to create channel after " ++ toString maxAttempts ++
            " attempts due to name collisions")) ∧
    (∀ k cid cname, k < 10 →
      (∀ i, i < k →
        (respond i (channelNameForAttempt (createChannelName s) i)).isNameTaken = true) →
      respond k (channelNameForAttempt (createChannelName s) k) = .okChannel cid cname →
      createChannel respond s = .ok cid cname) ∧
    (∀ k e d, k < 10 →
      (∀ i, i < k →
        (respond i (channelNameForAttempt (createChannelName s) i)).isNameTaken = true) →
      respond k (channelNameForAttempt (createChannelName s) k) = .err e d →
      e ≠ "name_taken" →
      createChannel respond s = .error e d) ∧
    channelNameForAttempt (createChannelName s) 3 = createChannelName s ++ "-4" ∧
    channelNameForAttempt (createChannelName s) 0 = createChannelName s := by
  refine ⟨?_, ?_, ?_, ?_, rfl⟩
  · intro htaken
    rw [createChannel, createChannelLoop_skip respond _ 10 0 maxAttempts (by decide)
      (by simpa using htaken)]
    rfl
  · intro k cid cname hk htaken hresp
    rw [createChannel, createChannelLoop_skip respond _ k 0 maxAttempts
      (by rw [maxAttempts]; omega) (by simpa using htaken)]
    obtain ⟨r2, hr2⟩ : ∃ r2, maxAttempts - k = r2 + 1 :=
      ⟨maxAttempts - k - 1, by rw [maxAttempts] at *; omega⟩
    rw [Nat.zero_add, hr2, createChannelLoop, hresp]
  · intro k e d hk htaken hresp hne
    rw [createChannel, createChannelLoop_skip respond _ k 0 maxAttempts
      (by rw [maxAttempts]; omega) (by simpa using htaken)]
    obtain ⟨r2, hr2⟩ : ∃ r2, maxAttempts - k = r2 + 1 :=
      ⟨maxAttempts - k - 1, by rw [maxAttempts] at *; omega⟩
    rw [Nat.zero_add, hr2, createChannelLoop, hresp]
    show (if e = "name_taken" then createChannelLoop respond _ (k + 1) r2
      else CreateChannelResult.error e d) = _
    rw [if_neg hne]
  · show createChannelName s ++ "-" ++ toString (3 + 1) = createChannelName s ++ "-4"
    rw [String.append_assoc]
    congr 1

/-- Witness for C3: three collisions then a success on the fourth
attempt, whose requested and returned name is the base name with the
-4 suffix. -/
theorem createChannel_collision_retry_witness :
    createChannel
      (fun i name =>
        if i < 3 then SlackCreateResponse.err "name_taken" "Slack API returned an error"
        else SlackCreateResponse.okChannel "C0123456789" name)
      "acme" = CreateChannelResult.ok "C0123456789" "ext-theguild-acme-4" := by
  have h := (createChannel_collision_retry
    (fun i name =>
      if i < 3 then SlackCreateResponse.err "name_taken" "Slack API returned an error"
      else SlackCreateResponse.okChannel "C0123456789" name)
    "acme").2.1 3 "C0123456789" "ext-theguild-acme-4" (by decide) (by decide) (by decide)
  exact h

/-- The loop consults the endpoint only at the computed attempt names:
two endpoints agreeing on those names yield the same result. -/
lemma createChannelLoop_congr (base : String)
    (respond respond2 : Nat → String → SlackCreateResponse)
    (h : ∀ j, respond j (channelNameForAttempt base j) =
      respond2 j (channelNameForAttempt base j)) :
    ∀ (r a : Nat), createChannelLoop respond base a r = createChannelLoop respond2 base a r := by
  intro r
  induction r with
  | zero => intro a; rfl
  | succ r ih =>
    intro a
    rw [createChannelLoop, createChannelLoop, h a]
    rcases hx : respond2 a (channelNameForAttempt base a) with ⟨e, d⟩ | ⟨cid, cname⟩ | _
    · show (if e = "name_taken" then createChannelLoop respond base (a + 1) r
        else CreateChannelResult.error e d) =
        (if e = "name_taken" then createChannelLoop respond2 base (a + 1) r
        else CreateChannelResult.error e d)
      by_cases he : e = "name_taken"
      · rw [if_pos he, if_pos he, ih (a + 1)]
      · rw [if_neg he, if_neg he]
    · rfl
    · rfl

/-- C10: every channel-creation request of `createChannel` uses the
fixed prefix `ext-theguild-` followed by the sanitized identifier,
with the collision suffix appended after that; the requested name is
never the bare identifier; the base name is exactly 13 characters
longer than the identifier, so with the 67-character identifier bound
the first requested name can reach 67 + 13 = 80 characters; and the
result depends on the endpoint only through its answers on those
prefixed names. -/
theorem createChannel_prefixed_names (s : String) (i : Nat) :
    createChannelName s = "ext-theguild-" ++ s ∧
    channelNameForAttempt (createChannelName s) i =
      createChannelName s ++ (if i = 0 then "" else "-" ++ toString (i + 1)) ∧
    channelNameForAttempt (createChannelName s) i ≠ s ∧
    (createChannelName s).length = s.length + 13 ∧
    (s.length ≤ 67 → (channelNameForAttempt (createChannelName s) 0).length ≤ 67 + 13) ∧
    (∀ respond respond2 : Nat → String → SlackCreateResponse,
      (∀ j, respond j (channelNameForAttempt (createChannelName s) j) =
        respond2 j (channelNameForAttempt (createChannelName s) j)) →
      createChannel respond s = createChannel respond2 s) := by
  have hlenbase : (createChannelName s).length = s.length + 13 := by
    rw [createChannelName, String.length_append]
    have h13 : ("ext-theguild-" : String).length = 13 := rfl
    omega
  have hattlen : ∀ j : Nat, (createChannelName s).length ≤
      (channelNameForAttempt (createChannelName s) j).length := by
    intro j
    rw [channelNameForAttempt]
    split
    · exact Nat.le_refl _
    · rw [String.length_append, String.length_append]
      omega
  refine ⟨rfl, ?_, ?_, hlenbase, ?_, ?_⟩
  · rw [channelNameForAttempt]
    split
    · rw [String.append_empty]
    · rw [String.append_assoc]
  · intro hcontra
    have := hattlen i
    rw [hcontra, hlenbase] at this
    omega
  · intro hs
    have h0 : channelNameForAttempt (createChannelName s) 0 = createChannelName s := rfl
    rw [h0, hlenbase]
    omega
  · intro respond respond2 h
    exact createChannelLoop_congr (createChannelName s) respond respond2 h maxAttempts 0

/-- Witness for C10: concrete attempt names, the length bound at a
concrete identifier, and the endpoint-agreement clause discharged with
two concrete endpoints that differ only on the bare (never requested)
identifier. -/
theorem createChannel_prefixed_names_witness :
    channelNameForAttempt (createChannelName "acme") 1 = "ext-theguild-acme-2" ∧
    (channelNameForAttempt (createChannelName "acme") 0).length ≤ 67 + 13 ∧
    createChannel (fun _ n => SlackCreateResponse.okChannel "C1" n) "acme" =
      createChannel
        (fun _ n => if n = "acme" then SlackCreateResponse.err "weird" "detail"
          else SlackCreateResponse.okChannel "C1" n) "acme" := by
  have h := createChannel_prefixed_names "acme" 1
  refine ⟨?_, h.2.2.2.2.1 (by decide), h.2.2.2.2.2 _ _ ?_⟩
  · rw [h.2.1]
    decide
  · intro j
    have hne := (createChannel_prefixed_names "acme" j).2.2.1
    show SlackCreateResponse.okChannel "C1" (channelNameForAttempt (createChannelName "acme") j) =
      if channelNameForAttempt (createChannelName "acme") j = "acme"
        then SlackCreateResponse.err "weird" "detail"
        else SlackCreateResponse.okChannel "C1" (channelNameForAttempt (createChannelName "acme") j)
    rw [if_neg hne]

/-! ## Submission orchestrator: worker/src/index.ts, the submit handler
after validation and rate limiting.

External collaborator calls are modelled by oracles giving the outcome
of each call per the `SlackResult` contract (`ok` or an error object);
the handler records the business operations it invokes, in order, and
the `logToChannel` events it emits as message/severity pairs. -/

/-- Outcome of a group-invite, guest-invite, or email-send call. -/
inductive StepResult where
  | ok
  | fail (error details : String)
deriving Repr, DecidableEq

structure SubmitOracles where
  createResponse : Nat → String → SlackCreateResponse
  groupInvite : StepResult
  guestInvite : StepResult
  emailSend : StepResult

/-- The JSON body of the success response: `ok`, `id`,
`sanitizedCompanyName`, `slackChannelId`, and `emailSent` present
(false) only when the email failed. -/
structure SubmitSuccessBody where
  ok : Bool
  id : String
  sanitizedCompanyName : String
  slackChannelId : String
  emailSent : Option Bool
deriving Repr, DecidableEq

inductive SubmitResponse where
  | success (body : SubmitSuccessBody)
  | errorResp (errorCode message : String)
deriving Repr, DecidableEq

structure SubmitOutput where
  status : Nat
  response : SubmitResponse
  calls : List String
  logs : List (String × String)
deriving Repr, DecidableEq

/-- The submit handler from the initiation log on: create the channel
(fatal on failure, 502), then best-effort group invite, guest invite
and welcome email, each failure logged at warn severity and recorded
in the partial-failures list that only the final summary log carries;
the caller response reflects only the email failure. -/
def processSubmission (o : SubmitOracles)
    (submissionId companyName email sanitizedCompanyName : String) : SubmitOutput :=
  let initLog := ("Channel creation initiated for `" ++ companyName ++ "`\n- user: `" ++
    email ++ "`\n- sanitized: `" ++ sanitizedCompanyName ++ "`", "info")
  match createChannel o.createResponse sanitizedCompanyName with
  | .error e d =>
    { status := 502,
      response := .errorResp "SLACK_ERROR" "Failed to create Slack channel",
      calls := ["createChannel"],
      logs := [initLog,
        ("Channel creation failed for " ++ sanitizedCompanyName ++ ": " ++ e ++ " - " ++ d,
          "error")] }
  | .ok channelId channelName =>
    let groupLogs : List (String × String) :=
      match o.groupInvite with
      | .ok => []
      | .fail e d =>
        [("Group invite failed for channel " ++ channelName ++ " (" ++ channelId ++ "): " ++
          e ++ " - " ++ d, "warn")]
    let guestLogs : List (String × String) :=
      match o.guestInvite with
      | .ok => []
      | .fail e d =>
        [("Guest invite failed for " ++ email ++ " to channel " ++ channelName ++ " (" ++
          channelId ++ "): " ++ e ++ " - " ++ d, "warn")]
    let emailLogs : List (String × String) :=
      match o.emailSend with
      | .ok => []
      | .fail e _ => [("Email sending failed for " ++ email ++ ": " ++ e, "warn")]
    let partialFailures : List String :=
      (match o.groupInvite with | .ok => [] | .fail _ _ => ["group invite"]) ++
      (match o.guestInvite with | .ok => [] | .fail _ _ => ["guest invite"]) ++
      (match o.emailSend with | .ok => [] | .fail _ _ => ["email"])
    let logMessage :=
      if partialFailures.length > 0 then
        "Submission processed for " ++ email ++ " (company: " ++ companyName ++ " -> " ++
          sanitizedCompanyName ++ "), channel: " ++ channelName ++ " (" ++ channelId ++
          "). Partial failures: " ++ String.intercalate ", " partialFailures
      else
        "Submission successfully processed for " ++ email ++ " (company: " ++ companyName ++
          " -> " ++ sanitizedCompanyName ++ "), channel: " ++ channelName ++ " (" ++
          channelId ++ ")"
    { status := 200,
      response := .success
        { ok := true, id := submissionId, sanitizedCompanyName := sanitizedCompanyName,
          slackChannelId := channelId,
          emailSent := match o.emailSend with | .ok => none | .fail _ _ => some false },
      calls := ["createChannel", "inviteGroup", "inviteGuest", "sendWelcomeEmail"],
      logs := [initLog] ++ groupLogs ++ guestLogs ++ emailLogs ++
        [(logMessage, if partialFailures.length > 0 then "warn" else "info")] }

/-- C8: if channel creation fails with a non-collision error (after
any initial run of collisions), the handler returns the upstream
failure (502, SLACK_ERROR) and never invokes the group invite, the
guest invite, or the notification email. -/
theorem orchestrator_fatal_short_circuit (o : SubmitOracles)
    (sid cname email s : String) (k : Nat) (e d : String) (hk : k < 10)
    (htaken : ∀ i, i < k →
      (o.createResponse i (channelNameForAttempt (createChannelName s) i)).isNameTaken = true)
    (hresp : o.createResponse k (channelNameForAttempt (createChannelName s) k) =
      .err e d)
    (hne : e ≠ "name_taken") :
    (processSubmission o sid cname email s).status = 502 ∧
    (processSubmission o sid cname email s).response =
      .errorResp "SLACK_ERROR" "Failed to create Slack channel" ∧
    (processSubmission o sid cname email s).calls = ["createChannel"] ∧
    "inviteGroup" ∉ (processSubmission o sid cname email s).calls ∧
    "inviteGuest" ∉ (processSubmission o sid cname email s).calls ∧
    "sendWelcomeEmail" ∉ (processSubmission o sid cname email s).calls := by
  have hcc : createChannel o.createResponse s = .error e d :=
    (createChannel_collision_retry o.createResponse s).2.2.1 k e d hk htaken hresp hne
  rw [processSubmission, hcc]
  dsimp only
  exact ⟨rfl, rfl, rfl, by decide, by decide, by decide⟩

/-- Witness for C8: a concrete immediate `invalid_auth` failure. -/
theorem orchestrator_fatal_short_circuit_witness :
    (processSubmission
      ⟨fun _ _ => SlackCreateResponse.err "invalid_auth" "Slack API returned an error",
        StepResult.ok, StepResult.ok, StepResult.ok⟩
      "id1" "Acme Corp" "user@acme.com" "acme-corp").status = 502 ∧
    (processSubmission
      ⟨fun _ _ => SlackCreateResponse.err "invalid_auth" "Slack API returned an error",
        StepResult.ok, StepResult.ok, StepResult.ok⟩
      "id1" "Acme Corp" "user@acme.com" "acme-corp").response =
      .errorResp "SLACK_ERROR" "Failed to create Slack channel" ∧
    (processSubmission
      ⟨fun _ _ => SlackCreateResponse.err "invalid_auth" "Slack API returned an error",
        StepResult.ok, StepResult.ok, StepResult.ok⟩
      "id1" "Acme Corp" "user@acme.com" "acme-corp").calls = ["createChannel"] ∧
    "inviteGroup" ∉ (processSubmission
      ⟨fun _ _ => SlackCreateResponse.err "invalid_auth" "Slack API returned an error",
        StepResult.ok, StepResult.ok, StepResult.ok⟩
      "id1" "Acme Corp" "user@acme.com" "acme-corp").calls ∧
    "inviteGuest" ∉ (processSubmission
      ⟨fun _ _ => SlackCreateResponse.err "invalid_auth" "Slack API returned an error",
        StepResult.ok, StepResult.ok, StepResult.ok⟩
      "id1" "Acme Corp" "user@acme.com" "acme-corp").calls ∧
    "sendWelcomeEmail" ∉ (processSubmission
      ⟨fun _ _ => SlackCreateResponse.err "invalid_auth" "Slack API returned an error",
        StepResult.ok, StepResult.ok, StepResult.ok⟩
      "id1" "Acme Corp" "user@acme.com" "acme-corp").calls :=
  orchestrator_fatal_short_circuit
    ⟨fun _ _ => SlackCreateResponse.err "invalid_auth" "Slack API returned an error",
      StepResult.ok, StepResult.ok, StepResult.ok⟩
    "id1" "Acme Corp" "user@acme.com" "acme-corp" 0 "invalid_auth"
    "Slack API returned an error" (by decide) (by omega) rfl (by decide)

/-- C6 (code evaluation): the submit handler never performs a
group-membership fetch.  Whatever the collaborators answer,
`getGroupUsers` is not among the operations the handler invokes, and
when channel creation succeeds the submission completes with status
200 without any membership fetch having been attempted — so a failure
of the membership fetch cannot make the submission fail. -/
theorem orchestrator_no_membership_fetch (o : SubmitOracles)
    (sid cname email s : String) :
    "getGroupUsers" ∉ (processSubmission o sid cname email s).calls ∧
    (∀ cid chname, createChannel o.createResponse s = .ok cid chname →
      (processSubmission o sid cname email s).status = 200) := by
  constructor
  · rcases hcc : createChannel o.createResponse s with ⟨cid, chname⟩ | ⟨e, d⟩
    · rw [processSubmission, hcc]
      dsimp only
      decide
    · rw [processSubmission, hcc]
      dsimp only
      decide
  · intro cid chname hcc
    rw [processSubmission, hcc]

/-- Witness for C6 at a concrete all-successful submission. -/
theorem orchestrator_no_membership_fetch_witness :
    "getGroupUsers" ∉ (processSubmission
      ⟨fun _ n => SlackCreateResponse.okChannel "C0123456789" n,
        StepResult.ok, StepResult.ok, StepResult.ok⟩
      "id1" "Test Company" "test@company.com" "test-company").calls ∧
    (processSubmission
      ⟨fun _ n => SlackCreateResponse.okChannel "C0123456789" n,
        StepResult.ok, StepResult.ok, StepResult.ok⟩
      "id1" "Test Company" "test@company.com" "test-company").status = 200 := by
  have h := orchestrator_no_membership_fetch
    ⟨fun _ n => SlackCreateResponse.okChannel "C0123456789" n,
      StepResult.ok, StepResult.ok, StepResult.ok⟩
    "id1" "Test Company" "test@company.com" "test-company"
  exact ⟨h.1, h.2 "C0123456789" "ext-theguild-test-company" (by decide)⟩

/-- C7 counterexample: the caller-visible response is identical
whether or not the group invite failed, so the result returned to the
caller does not list the failing step names (only the logs do). -/
theorem orchestrator_response_hides_partial_failures :
    (processSubmission
      ⟨fun _ n => SlackCreateResponse.okChannel "C0123456789" n,
        StepResult.fail "group_not_found" "Guild group not found",
        StepResult.ok, StepResult.ok⟩
      "id1" "Acme" "user@acme.com" "acme").response =
    (processSubmission
      ⟨fun _ n => SlackCreateResponse.okChannel "C0123456789" n,
        StepResult.ok, StepResult.ok, StepResult.ok⟩
      "id1" "Acme" "user@acme.com" "acme").response := by
  decide

/-- C7 (amended): when channel creation succeeds, the submission is a
success (200) whatever the three best-effort steps do; all three are
invoked; the caller response reflects only the email failure through
the `emailSent` flag and is otherwise independent of the group and
guest invite outcomes; and the failing step names are listed in the
final summary log, at warn severity. -/
theorem orchestrator_partial_failure_amended (o : SubmitOracles)
    (sid cname email s cid chname : String)
    (hcc : createChannel o.createResponse s = .ok cid chname) :
    (processSubmission o sid cname email s).status = 200 ∧
    (processSubmission o sid cname email s).response = .success
      { ok := true, id := sid, sanitizedCompanyName := s, slackChannelId := cid,
        emailSent := match o.emailSend with | .ok => none | .fail _ _ => some false } ∧
    (processSubmission o sid cname email s).calls =
      ["createChannel", "inviteGroup", "inviteGuest", "sendWelcomeEmail"] ∧
    (∀ o2 : SubmitOracles, o2.createResponse = o.createResponse →
      o2.emailSend = o.emailSend →
      (processSubmission o2 sid cname email s).response =
        (processSubmission o sid cname email s).response) ∧
    (((match o.groupInvite with | .ok => ([] : List String) | .fail _ _ => ["group invite"]) ++
      (match o.guestInvite with | .ok => [] | .fail _ _ => ["guest invite"]) ++
      (match o.emailSend with | .ok => [] | .fail _ _ => ["email"])) ≠ [] →
      (processSubmission o sid cname email s).logs.getLast? =
        some ("Submission processed for " ++ email ++ " (company: " ++ cname ++ " -> " ++ s ++
          "), channel: " ++ chname ++ " (" ++ cid ++ "). Partial failures: " ++
          String.intercalate ", "
            ((match o.groupInvite with | .ok => [] | .fail _ _ => ["group invite"]) ++
             (match o.guestInvite with | .ok => [] | .fail _ _ => ["guest invite"]) ++
             (match o.emailSend with | .ok => [] | .fail _ _ => ["email"])), "warn")) := by
  refine ⟨?_, ?_, ?_, ?_, ?_⟩
  · rw [processSubmission, hcc]
  · rw [processSubmission, hcc]
  · rw [processSubmission, hcc]
  · intro o2 h2cr h2em
    have hcc2 : createChannel o2.createResponse s = .ok cid chname := by
      rw [h2cr]
      exact hcc
    rw [processSubmission, processSubmission, hcc, hcc2]
    dsimp only
    rw [h2em]
  · intro hne
    have hpos : 0 < ((match o.groupInvite with
        | .ok => ([] : List String) | .fail _ _ => ["group invite"]) ++
      (match o.guestInvite with | .ok => [] | .fail _ _ => ["guest invite"]) ++
      (match o.emailSend with | .ok => [] | .fail _ _ => ["email"])).length :=
      List.length_pos.2 hne
    rw [processSubmission, hcc]
    dsimp only
    rw [List.getLast?_concat]
    rw [if_pos hpos, if_pos hpos]

/-- Witness for the amended C7: group invite and email fail, guest
invite succeeds; the submission still succeeds with all steps invoked,
the response carries only `emailSent := false`, a run with the guest
invite also failing produces the same caller response, and the summary
log lists the failing steps at warn severity. -/
theorem orchestrator_partial_failure_amended_witness :
    (processSubmission
      ⟨fun _ n => SlackCreateResponse.okChannel "C0123456789" n,
        StepResult.fail "group_not_found" "Guild group not found",
        StepResult.ok, StepResult.fail "network_error" ""⟩
      "id1" "Acme" "user@acme.com" "acme").status = 200 ∧
    (processSubmission
      ⟨fun _ n => SlackCreateResponse.okChannel "C0123456789" n,
        StepResult.fail "group_not_found" "Guild group not found",
        StepResult.ok, StepResult.fail "network_error" ""⟩
      "id1" "Acme" "user@acme.com" "acme").response = .success
        { ok := true, id := "id1", sanitizedCompanyName := "acme",
          slackChannelId := "C0123456789", emailSent := some false } ∧
    (processSubmission
      ⟨fun _ n => SlackCreateResponse.okChannel "C0123456789" n,
        StepResult.fail "group_not_found" "Guild group not found",
        StepResult.ok, StepResult.fail "network_error" ""⟩
      "id1" "Acme" "user@acme.com" "acme").calls =
      ["createChannel", "inviteGroup", "inviteGuest", "sendWelcomeEmail"] ∧
    (processSubmission
      ⟨fun _ n => SlackCreateResponse.okChannel "C0123456789" n,
        StepResult.fail "group_not_found" "Guild group not found",
        StepResult.fail "user_not_found" "x", StepResult.fail "network_error" ""⟩
      "id1" "Acme" "user@acme.com" "acme").response =
    (processSubmission
      ⟨fun _ n => SlackCreateResponse.okChannel "C0123456789" n,
        StepResult.fail "group_not_found" "Guild group not found",
        StepResult.ok, StepResult.fail "network_error" ""⟩
      "id1" "Acme" "user@acme.com" "acme").response ∧
    (processSubmission
      ⟨fun _ n => SlackCreateResponse.okChannel "C0123456789" n,
        StepResult.fail "group_not_found" "Guild group not found",
        StepResult.ok, StepResult.fail "network_error" ""⟩
      "id1" "Acme" "user@acme.com" "acme").logs.getLast? =
      some ("Submission processed for user@acme.com (company: Acme -> acme), " ++
        "channel: ext-theguild-acme (C0123456789). " ++
        "Partial failures: group invite, email", "warn") := by
  have thm := orchestrator_partial_failure_amended
    ⟨fun _ n => SlackCreateResponse.okChannel "C0123456789" n,
      StepResult.fail "group_not_found" "Guild group not found",
      StepResult.ok, StepResult.fail "network_error" ""⟩
    "id1" "Acme" "user@acme.com" "acme" "C0123456789" "ext-theguild-acme" (by decide)
  refine ⟨thm.1, thm.2.1, thm.2.2.1, ?_, ?_⟩
  · exact thm.2.2.2.1
      ⟨fun _ n => SlackCreateResponse.okChannel "C0123456789" n,
        StepResult.fail "group_not_found" "Guild group not found",
        StepResult.fail "user_not_found" "x", StepResult.fail "network_error" ""⟩
      rfl rfl
  · have h5 := thm.2.2.2.2 (by decide)
    rw [h5]
    decide
